import Mathlib

set_option maxRecDepth 200000

/-!
Verification development for the FeynmanCraft observability backbone:
a shallow embedding of `sse_bus.py` (the SSE event bus: sequence counter,
ring buffer, subscriber queues, replay/heartbeat streaming) and
`tool_metrics.py` (the tool-metrics collector), together with theorems
settling the specified properties.

Modelling conventions:
* Python floats (wall-clock times, durations) are embedded as exact
  fractions (`PyFloat` below).
* Python ints are `Nat` where the source keeps them nonnegative by
  construction, otherwise `Int` (e.g. `concurrent_calls`, which the source
  clamps with `max(0, ...)`).
* Python dicts are association lists in insertion order; the event dict is
  a record (`Event` before packing, `PackedEvent` after).
* `asyncio.Queue.put_nowait` raises only `QueueFull`; the bus's defensive
  `except Exception` arm (which would collect "dead" queues) is therefore
  unreachable and the embedded `put_nowait` is a total function with an
  explicit full/drop branch.
-/

/-- Python float values (wall-clock times, durations), embedded exactly
as unreduced integer fractions with positive denominators.  Core `Rat`
normalizes through `Nat.gcd`, which the kernel cannot unfold, so concrete
program runs would not evaluate inside `decide`; this clone's operations
are plain integer arithmetic.  IEEE-754 rounding is not modelled — no
claim below depends on it. -/
structure PyFloat where
  num : Int
  den : Nat := 1
deriving Repr, DecidableEq

def PyFloat.add (a b : PyFloat) : PyFloat :=
  ⟨a.num * b.den + b.num * a.den, a.den * b.den⟩

def PyFloat.sub (a b : PyFloat) : PyFloat :=
  ⟨a.num * b.den - b.num * a.den, a.den * b.den⟩

def PyFloat.mul (a b : PyFloat) : PyFloat := ⟨a.num * b.num, a.den * b.den⟩

/-- Division (meaningful whenever the divisor is nonzero, which is the
case at every division the source performs). -/
def PyFloat.div (a b : PyFloat) : PyFloat :=
  ⟨a.num * b.den * b.num.sign, a.den * b.num.natAbs⟩

/-- Value order: `a ≤ b` iff `a.num/a.den ≤ b.num/b.den` (dens positive). -/
def PyFloat.le (a b : PyFloat) : Prop := a.num * b.den ≤ b.num * a.den

def PyFloat.lt (a b : PyFloat) : Prop := a.num * b.den < b.num * a.den

/-- `t // 1` floor to an integer: Python `int(t // 3600)` is
`PyFloat.floor (t / 3600)`. -/
def PyFloat.floor (a : PyFloat) : Int := Int.fdiv a.num a.den

/-- Python `int(t)`: truncation toward zero. -/
def int_of_float (a : PyFloat) : Int := Int.tdiv a.num a.den

instance : Add PyFloat := ⟨PyFloat.add⟩

instance : Sub PyFloat := ⟨PyFloat.sub⟩

instance : Mul PyFloat := ⟨PyFloat.mul⟩

instance : Div PyFloat := ⟨PyFloat.div⟩

instance : LE PyFloat := ⟨PyFloat.le⟩

instance : LT PyFloat := ⟨PyFloat.lt⟩

instance : OfNat PyFloat n := ⟨⟨n, 1⟩⟩

instance : NatCast PyFloat := ⟨fun n => ⟨n, 1⟩⟩

instance (a b : PyFloat) : Decidable (a ≤ b) :=
  inferInstanceAs (Decidable (a.num * b.den ≤ b.num * a.den))

instance (a b : PyFloat) : Decidable (a < b) :=
  inferInstanceAs (Decidable (a.num * b.den < b.num * a.den))

/-- Python `min(a, b)`: `a` unless `b` is strictly smaller. -/
instance : Min PyFloat := ⟨fun a b => if a ≤ b then a else b⟩

/-- Python `max(a, b)`: `a` unless `b` is strictly larger. -/
instance : Max PyFloat := ⟨fun a b => if a < b then b else a⟩

/-- Extra event fields beyond the ones the bus itself interprets
(`type`, `ts`, `seq`): an uninterpreted bag of key/value pairs. -/
abbrev Payload := List (String × String)

/-- An event handed to `publish`: `ts` and `seq` are optional on input
(`ts` may be caller-supplied, `seq` is ignored on input and always
assigned by the bus). -/
structure Event where
  type : String
  ts : Option PyFloat := none
  seq : Option Nat := none
  payload : Payload := []
deriving Repr, DecidableEq

/-- An event after `_pack_event`: `ts` and `seq` are definitely present. -/
structure PackedEvent where
  type : String
  ts : PyFloat
  seq : Nat
  payload : Payload := []
deriving Repr, DecidableEq

/-- `RING_MAX = 5000`: capacity of the replay ring buffer. -/
def RING_MAX : Nat := 5000

/-- `asyncio.Queue(maxsize=2000)`: capacity of each subscriber queue. -/
def QUEUE_MAXSIZE : Nat := 2000

/-- One subscriber: its identity (`id(q)` in the source) and the FIFO
contents of its bounded queue, head = next event to be delivered. -/
structure Subscriber where
  id : Nat
  items : List PackedEvent
deriving Repr, DecidableEq

/-- The bus module's global state: `SEQ`, `RING`, `SUBS`. -/
structure BusState where
  SEQ : Nat
  RING : List PackedEvent
  SUBS : List Subscriber
deriving Repr, DecidableEq

/-- The module-load state: `SEQ = 0`, empty ring, no subscribers. -/
def initialBus : BusState := { SEQ := 0, RING := [], SUBS := [] }

/-- `_next_seq`: increment the global counter and return it. -/
def _next_seq (st : BusState) : Nat × BusState :=
  (st.SEQ + 1, { st with SEQ := st.SEQ + 1 })

/-- `_pack_event`: `evt.setdefault("ts", time.time())` keeps a
caller-supplied timestamp and fills it only when absent; the sequence is
unconditionally overwritten with the next counter value. -/
def _pack_event (now : PyFloat) (evt : Event) (st : BusState) : PackedEvent × BusState :=
  let p := _next_seq st
  ({ type := evt.type, ts := evt.ts.getD now, seq := p.1, payload := evt.payload }, p.2)

/-- `RING.append(e); if len(RING) > RING_MAX: RING.pop(0)`. -/
def ringAppend (ring : List PackedEvent) (e : PackedEvent) : List PackedEvent :=
  let r := ring ++ [e]
  if RING_MAX < r.length then r.tail else r

/-- `q.put_nowait(e)`: enqueue unless the queue is at capacity; on
`QueueFull` the event is dropped for this subscriber only and the
subscriber is kept (the source logs a warning and does not remove it). -/
def put_nowait (e : PackedEvent) (q : Subscriber) : Subscriber :=
  if q.items.length < QUEUE_MAXSIZE then { q with items := q.items ++ [e] } else q

/-- `publish`: pack (assigning the sequence), append to the ring with
eviction, then offer the packed event to every subscriber queue.  Never
raises and never removes a subscriber (see module comment on the
unreachable `except Exception` arm). -/
def publish (now : PyFloat) (evt : Event) (st : BusState) : BusState :=
  let p := _pack_event now evt st
  { p.2 with RING := ringAppend p.2.RING p.1, SUBS := p.2.SUBS.map (put_nowait p.1) }

/-- A whole sequence of `publish` calls, each with its wall-clock time. -/
def publishAll (ps : List (PyFloat × Event)) (st : BusState) : BusState :=
  ps.foldl (fun st p => publish p.1 p.2 st) st

/-- The list of packed events produced by publishing `ps` when the
counter starts at `seq0`: the i-th event gets sequence `seq0 + i + 1`
and timestamp `setdefault`-style. -/
def packedList : List (PyFloat × Event) → Nat → List PackedEvent
  | [], _ => []
  | p :: ps, s =>
      { type := p.2.type, ts := p.2.ts.getD p.1, seq := s + 1, payload := p.2.payload }
        :: packedList ps (s + 1)

/-- The replay phase of `stream(since)`: every buffered event with
`seq > since`, in buffer order. -/
def replayEvents (ring : List PackedEvent) (since : Nat) : List PackedEvent :=
  ring.filter (fun e => since < e.seq)

/-- The last `n` elements of a list (the "most recent" suffix). -/
def lastN (n : Nat) (l : List α) : List α := l.drop (l.length - n)

/-- Sequence numbers in every structure of the bus are strictly
increasing in storage/delivery order and never exceed the counter. -/
def BusInv (st : BusState) : Prop :=
  (List.Pairwise (fun a b => a.seq < b.seq) st.RING ∧ ∀ e ∈ st.RING, e.seq ≤ st.SEQ) ∧
  ∀ q ∈ st.SUBS, List.Pairwise (fun a b => a.seq < b.seq) q.items ∧
    ∀ e ∈ q.items, e.seq ≤ st.SEQ

-- ### Streaming: one subscriber's `stream(since)` coroutine

/-- One frame yielded by `stream`: a real event, the `server.ready`
marker, or a `heartbeat`.  The marker and heartbeat frames also carry a
`seq` field, holding the *current* global counter. -/
inductive Frame where
  | event (e : PackedEvent)
  | ready (seq : Nat) (ts : PyFloat) (subs : Nat)
  | heartbeat (seq : Nat) (ts : PyFloat) (subs : Nat)
deriving Repr, DecidableEq

/-- The `seq` field carried by a frame, whatever its kind. -/
def Frame.seqOf : Frame → Nat
  | .event e => e.seq
  | .ready s _ _ => s
  | .heartbeat s _ _ => s

/-- The sequence numbers of the *event* frames of a stream, in order. -/
def eventSeqs (fs : List Frame) : List Nat :=
  fs.filterMap (fun f => match f with | .event e => some e.seq | _ => none)

/-- The state of one `stream` client interleaved with the bus: the global
bus, the client's queue identity, its heartbeat clock, and the frames it
has yielded so far. -/
structure RunState where
  bus : BusState
  myId : Nat
  lastHb : PyFloat
  frames : List Frame
deriving Repr, DecidableEq

/-- Entering `stream(since)` at time `now`: register a fresh empty queue
in `SUBS`, then (synchronously) emit the replay frames for `since` and
the `server.ready` marker, and start the heartbeat clock. -/
def subscribe (st : BusState) (id : Nat) (since : Option Nat) (now : PyFloat) : RunState :=
  let bus : BusState := { st with SUBS := st.SUBS ++ [{ id := id, items := [] }] }
  { bus := bus, myId := id, lastHb := now,
    frames :=
      (match since with
       | some s => (replayEvents bus.RING s).map Frame.event
       | none => []) ++ [Frame.ready bus.SEQ now bus.SUBS.length] }

/-- This client's queue contents (empty if it is not registered). -/
def myQueue (rs : RunState) : List PackedEvent :=
  ((rs.bus.SUBS.find? (fun q => q.id == rs.myId)).map Subscriber.items).getD []

/-- Replace this client's queue contents (after a `q.get()`). -/
def setMyQueue (rs : RunState) (items : List PackedEvent) : RunState :=
  let f := fun q : Subscriber => if q.id == rs.myId then { q with items := items } else q
  { rs with bus := { rs.bus with SUBS := rs.bus.SUBS.map f } }

/-- One interleaving step of the system as seen by one `stream` client:
some producer publishes; the client's `q.get()` returns (it yields the
head of its queue, or blocks — a no-op here — when empty); or `q.get()`
times out at time `now` and the heartbeat branch runs. -/
inductive SysStep where
  | pub (now : PyFloat) (evt : Event)
  | recv
  | hb (now : PyFloat)
deriving Repr

def stepRun (rs : RunState) : SysStep → RunState
  | .pub now evt => { rs with bus := publish now evt rs.bus }
  | .recv =>
      match myQueue rs with
      | [] => rs
      | e :: rest => { setMyQueue rs rest with frames := rs.frames ++ [Frame.event e] }
  | .hb now =>
      if 5 ≤ now - rs.lastHb then
        { rs with lastHb := now,
                  frames := rs.frames ++ [Frame.heartbeat rs.bus.SEQ now rs.bus.SUBS.length] }
      else rs

def runSteps (rs : RunState) (steps : List SysStep) : RunState :=
  steps.foldl stepRun rs

-- ### Tool metrics collector (tool_metrics.py)

/-- Python-dict lookup on an insertion-ordered association list. -/
def alookup {κ β : Type} [DecidableEq κ] (k : κ) : List (κ × β) → Option β
  | [] => none
  | p :: l => if p.1 = k then some p.2 else alookup k l

/-- Python-dict in-place value update (`d[k] = f(d[k])` for present `k`). -/
def aupdate {κ β : Type} [DecidableEq κ] (k : κ) (f : β → β) (l : List (κ × β)) :
    List (κ × β) :=
  l.map (fun p => if p.1 = k then (p.1, f p.2) else p)

/-- Python-dict `pop(k)`'s effect on the mapping (keys are unique). -/
def aremove {κ β : Type} [DecidableEq κ] (k : κ) (l : List (κ × β)) : List (κ × β) :=
  l.filter (fun p => p.1 ≠ k)

/-- Python-dict assignment `d[k] = v`: overwrite in place or append. -/
def dictInsert {κ β : Type} [DecidableEq κ] (l : List (κ × β)) (k : κ) (v : β) :
    List (κ × β) :=
  if (alookup k l).isSome then aupdate k (fun _ => v) l else l ++ [(k, v)]

/-- `ToolCall`: one bracketed operation (dataclass of the source). -/
structure ToolCall where
  tool_name : String
  start_time : PyFloat
  end_time : Option PyFloat := none
  duration : Option PyFloat := none
  success : Bool := true
  error : Option String := none
  session_id : String := ""
  trace_id : String := ""
  step_id : String := ""
  params : Payload := []
deriving Repr, DecidableEq

/-- `ToolMetrics`: per-tool aggregates. `min_duration`'s `float('inf')`
initial value is `none`; `concurrent_calls` is an `Int` because the
source clamps it with `max(0, ...)` on decrement. -/
structure ToolMetrics where
  name : String
  category : String
  total_calls : Nat := 0
  successful_calls : Nat := 0
  failed_calls : Nat := 0
  total_duration : PyFloat := 0
  avg_duration : PyFloat := 0
  min_duration : Option PyFloat := none
  max_duration : PyFloat := 0
  p50_duration : PyFloat := 0
  p95_duration : PyFloat := 0
  p99_duration : PyFloat := 0
  success_rate : PyFloat := 100
  last_called : PyFloat := 0
  calls_per_hour : PyFloat := 0
  error_rate : PyFloat := 0
  recent_errors : List String := []
  concurrent_calls : Int := 0
deriving Repr, DecidableEq

/-- The collector's lock-protected state (the background cleanup task and
the lock itself are concurrency plumbing with no claim attached). -/
structure ToolMetricsCollector where
  max_history_hours : Nat := 24
  _active_calls : List (String × ToolCall) := []
  _completed_calls : List ToolCall := []
  _tool_metrics : List (String × ToolMetrics) := []
  _call_counter : Nat := 0
deriving Repr, DecidableEq

/-- The collector plus the bus it publishes its SSE events into. -/
structure MetricsWorld where
  coll : ToolMetricsCollector
  bus : BusState
deriving Repr, DecidableEq

def freshWorld : MetricsWorld := { coll := {}, bus := initialBus }

/-- Python `needle in haystack` on strings. -/
def hasSubstr (s pat : String) : Bool := decide (pat.toList <:+: s.toList)

/-- `_categorize_tool`: keyword-based category. -/
def _categorize_tool (tool_name : String) : String :=
  let name := tool_name.toLower
  if hasSubstr name "mcp" || hasSubstr name "particle" || hasSubstr name "physics" then "mcp"
  else if hasSubstr name "search" || hasSubstr name "kb" || hasSubstr name "retriev" then "search"
  else if hasSubstr name "valid" || hasSubstr name "check" then "validation"
  else if hasSubstr name "generat" || hasSubstr name "diagram" || hasSubstr name "tikz" then
    "generation"
  else if hasSubstr name "compil" || hasSubstr name "latex" then "compilation"
  else "analysis"

/-- The `tool_call_start` SSE event (nested `params` dict elided into the
uninterpreted payload bag). -/
def startEvent (call_id : String) (call : ToolCall) : Event :=
  { type := "tool_call_start",
    payload := [("tool", call.tool_name), ("call_id", call_id), ("trace_id", call.trace_id),
                ("step_id", call.step_id), ("session_id", call.session_id),
                ("timestamp", toString (int_of_float (call.start_time * 1000)))] }

/-- The `tool_call_end` SSE event. -/
def endEvent (call_id : String) (call : ToolCall) : Event :=
  { type := "tool_call_end",
    payload := [("tool", call.tool_name), ("call_id", call_id), ("trace_id", call.trace_id),
                ("step_id", call.step_id), ("session_id", call.session_id),
                ("timestamp", toString (int_of_float ((call.end_time.getD 0) * 1000))),
                ("duration", toString (int_of_float ((call.duration.getD 0) * 1000))),
                ("success", toString call.success), ("error", call.error.getD "")] }

/-- `start_tool_call`: mint the id, record the active call, bump the
concurrent counter *only when a metrics entry for the name already
exists* (the entry is created lazily by `_update_tool_metrics` on the
first `end`), and emit the start event.  The source reads `time.time()`
a few times in close succession; the embedding uses one `now` for all. -/
def start_tool_call (now : PyFloat) (tool_name session_id trace_id step_id : String)
    (params : Payload) (w : MetricsWorld) : String × MetricsWorld :=
  let c := w.coll
  let counter := c._call_counter + 1
  let call_id := tool_name ++ "_" ++ toString counter ++ "_"
      ++ toString (int_of_float (now * 1000))
  let call : ToolCall := { tool_name := tool_name, start_time := now,
                           session_id := session_id, trace_id := trace_id,
                           step_id := step_id, params := params }
  let tms :=
    if (alookup tool_name c._tool_metrics).isSome then
      aupdate tool_name (fun m => { m with concurrent_calls := m.concurrent_calls + 1 })
        c._tool_metrics
    else c._tool_metrics
  let c := { c with _call_counter := counter,
                    _active_calls := c._active_calls ++ [(call_id, call)],
                    _tool_metrics := tms }
  (call_id, { coll := c, bus := publish now (startEvent call_id call) w.bus })

/-- `recent_errors` keeps only the last 5 entries. -/
def last5 (l : List String) : List String := if 5 < l.length then l.drop (l.length - 5) else l

/-- The per-record fold of `_update_tool_metrics`: counters, duration
statistics, percentiles, rates, and finally the concurrent counter
(decremented, floored at zero).  The percentile indices `int(n*0.5)`,
`int(n*0.95)`, `int(n*0.99)` are modelled as `n*50/100` etc. in exact
arithmetic; Python computes them through binary floating-point products,
which can differ by one at exact multiples — no claim below touches the
percentile fields. -/
def updateMetricsRecord (now : PyFloat) (call : ToolCall) (completed : List ToolCall)
    (metrics : ToolMetrics) : ToolMetrics :=
  let metrics := { metrics with total_calls := metrics.total_calls + 1 }
  let metrics :=
    if call.success then { metrics with successful_calls := metrics.successful_calls + 1 }
    else
      let m := { metrics with failed_calls := metrics.failed_calls + 1 }
      match call.error with
      | some e =>
          if e ≠ "" then { m with recent_errors := last5 (m.recent_errors ++ [e]) } else m
      | none => m
  let metrics :=
    match call.duration with
    | none => metrics
    | some d =>
        let td := metrics.total_duration + d
        let metrics := { metrics with
          total_duration := td,
          avg_duration := td / (metrics.total_calls : PyFloat),
          min_duration := some (match metrics.min_duration with
                                | none => d
                                | some m0 => min m0 d),
          max_duration := max metrics.max_duration d }
        let recent_durations :=
          (completed.filter (fun c : ToolCall =>
            c.tool_name == call.tool_name && c.duration.isSome)).filterMap
            (fun c : ToolCall => c.duration)
        if recent_durations.isEmpty then metrics
        else
          let sorted := List.insertionSort (fun a b : PyFloat => a ≤ b) recent_durations
          let n := sorted.length
          { metrics with
            p50_duration := sorted.getD (n * 50 / 100) 0,
            p95_duration := sorted.getD (n * 95 / 100) 0,
            p99_duration := sorted.getD (n * 99 / 100) 0 }
  let metrics := { metrics with
    success_rate := (metrics.successful_calls : PyFloat) / (metrics.total_calls : PyFloat) * 100,
    error_rate := (metrics.failed_calls : PyFloat) / (metrics.total_calls : PyFloat) * 100,
    last_called := call.end_time.getD call.start_time }
  let recent_calls :=
    (completed.filter (fun c : ToolCall => c.tool_name == call.tool_name
      && decide (now - 3600 < c.start_time))).length
  let metrics := { metrics with calls_per_hour := (recent_calls : PyFloat) }
  { metrics with concurrent_calls := max 0 (metrics.concurrent_calls - 1) }

/-- `_update_tool_metrics`, called by `end_tool_call` *after* the call
was appended to `completed`: create the entry lazily on first use, then
fold the finalized call into it. -/
def _update_tool_metrics (now : PyFloat) (call : ToolCall) (completed : List ToolCall)
    (tms : List (String × ToolMetrics)) : List (String × ToolMetrics) :=
  let tool_name := call.tool_name
  let tms :=
    if (alookup tool_name tms).isSome then tms
    else tms ++ [(tool_name, { name := tool_name, category := _categorize_tool tool_name })]
  aupdate tool_name (updateMetricsRecord now call completed) tms

/-- `end_tool_call`: unknown id → warning and `None`, nothing changes;
known id → remove from active, finalize, append to history, fold into
the metrics, emit the end event, return the finalized record. -/
def end_tool_call (now : PyFloat) (call_id : String) (success : Bool) (error : Option String)
    (w : MetricsWorld) : Option ToolCall × MetricsWorld :=
  match alookup call_id w.coll._active_calls with
  | none => (none, w)
  | some call0 =>
      let call := { call0 with end_time := some now,
                               duration := some (now - call0.start_time),
                               success := success, error := error }
      let completed := w.coll._completed_calls ++ [call]
      let c := { w.coll with
        _active_calls := aremove call_id w.coll._active_calls,
        _completed_calls := completed,
        _tool_metrics := _update_tool_metrics now call completed w.coll._tool_metrics }
      (some call, { coll := c, bus := publish now (endEvent call_id call) w.bus })

/-- The concurrently-active counter the collector reports for a name
(0 when no metrics entry exists yet). -/
def concurrentOf (name : String) (c : ToolMetricsCollector) : Int :=
  ((alookup name c._tool_metrics).map ToolMetrics.concurrent_calls).getD 0

/-- `total_calls` reported for a name (0 when no entry exists yet). -/
def totalOf (name : String) (c : ToolMetricsCollector) : Nat :=
  ((alookup name c._tool_metrics).map ToolMetrics.total_calls).getD 0

/-- `id` names an active call of tool `t`. -/
def activeCallFor (t : String) (id : String) (c : ToolMetricsCollector) : Bool :=
  match alookup id c._active_calls with
  | some call => call.tool_name == t
  | none => false

/-- `n` successive `start_tool_call`s, returning the minted ids in order. -/
def startN (now : PyFloat) (name : String) : Nat → MetricsWorld → List String × MetricsWorld
  | 0, w => ([], w)
  | n + 1, w =>
      let r := start_tool_call now name "" "" "" [] w
      let rest := startN now name n r.2
      (r.1 :: rest.1, rest.2)

/-- `end_tool_call` over a list of ids (all successful, no error). -/
def endAll (now : PyFloat) (ids : List String) (w : MetricsWorld) : MetricsWorld :=
  ids.foldl (fun w id => (end_tool_call now id true none w).2) w

/-- The §8 scenario: 100 starts of one tool on a fresh collector. -/
def scenario100 : List String × MetricsWorld := startN 0 "demo_tool" 100 freshWorld

-- ### Activity heatmap

/-- A bucket while the heatmap is being built (still carries the raw
`durations` list that the source deletes before returning). -/
structure HeatBucketAux where
  hour : ℤ
  timestamp : PyFloat
  calls : Nat
  errors : Nat
  avg_duration : PyFloat
  durations : List PyFloat
deriving Repr, DecidableEq

/-- A returned heatmap bucket (after `del bucket['durations']`). -/
structure HeatBucket where
  hour : ℤ
  timestamp : PyFloat
  calls : Nat
  errors : Nat
  avg_duration : PyFloat
deriving Repr, DecidableEq

/-- Folding one completed call into its bucket (`if call.duration:` is
Python truthiness: present *and* nonzero). -/
def bucketFill (call : ToolCall) (b : HeatBucketAux) : HeatBucketAux :=
  let b := { b with calls := b.calls + 1 }
  let b := if call.success then b else { b with errors := b.errors + 1 }
  match call.duration with
  | some d => if d.num = 0 then b else { b with durations := b.durations ++ [d] }
  | none => b

/-- Phase 1 of `get_activity_heatmap`: create one zero bucket per hour
`i = 0 … hours-1` (newest first), keyed by the absolute hour
`int((now - i*3600) // 3600)`, by Python-dict insertion. -/
def heatmapBuckets0 (now : PyFloat) (hours : Nat) : List (ℤ × HeatBucketAux) :=
  (List.range hours).foldl (fun bs (i : Nat) =>
    let hour_start := now - (i : PyFloat) * 3600
    let hour_key : ℤ := PyFloat.floor (hour_start / 3600)
    dictInsert bs hour_key
      { hour := hour_key, timestamp := hour_start, calls := 0, errors := 0,
        avg_duration := 0, durations := [] }) []

/-- Phase 2, one call: skip it if older than the cutoff, else fold it
into the bucket of its absolute hour — if such a bucket exists. -/
def heatmapFillStep (cutoff : PyFloat) (bs : List (ℤ × HeatBucketAux)) (call : ToolCall) :
    List (ℤ × HeatBucketAux) :=
  if call.start_time < cutoff then bs
  else
    let hour_key : ℤ := PyFloat.floor (call.start_time / 3600)
    if (alookup hour_key bs).isSome then aupdate hour_key (bucketFill call) bs else bs

/-- Phase 3: average the collected durations and drop the raw list
(`del bucket['durations']`). -/
def heatmapFinalize (p : ℤ × HeatBucketAux) : HeatBucket :=
  { hour := p.2.hour, timestamp := p.2.timestamp, calls := p.2.calls, errors := p.2.errors,
    avg_duration := if p.2.durations.isEmpty then p.2.avg_duration
      else p.2.durations.foldl (· + ·) 0 / (p.2.durations.length : PyFloat) }

/-- `get_activity_heatmap(hours)` over the completed-call history:
absolute one-hour buckets keyed by `int(t // 3600)`, newest first. -/
def get_activity_heatmap (now : PyFloat) (hours : Nat) (completed : List ToolCall) :
    List HeatBucket :=
  let cutoff := now - (hours : PyFloat) * 3600
  (completed.foldl (heatmapFillStep cutoff) (heatmapBuckets0 now hours)).map heatmapFinalize

/-- The `i`-th initial bucket entry, written with its key in the
`⌊now/3600⌋ - i` form (used to characterize phase 1). -/
def bucketInitSpec (now : PyFloat) (i : Nat) : ℤ × HeatBucketAux :=
  (PyFloat.floor (now / 3600) - (i : ℤ),
   { hour := PyFloat.floor (now / 3600) - (i : ℤ),
     timestamp := now - (i : PyFloat) * 3600, calls := 0, errors := 0,
     avg_duration := 0, durations := [] })

/-- What the i-th (newest-first) heatmap bucket *actually* contains,
written out directly: the absolute-hour window `⌊now/3600⌋ - i`,
counting exactly the completed calls at or after the cutoff whose
absolute hour equals that key. -/
def heatBucketSpec (now : PyFloat) (hours : Nat) (completed : List ToolCall) (i : Nat) :
    HeatBucket :=
  let key : ℤ := PyFloat.floor (now / 3600) - (i : ℤ)
  let matching := completed.filter (fun c =>
    decide (now - (hours : PyFloat) * 3600 ≤ c.start_time)
      && decide (PyFloat.floor (c.start_time / 3600) = key))
  let durs := matching.filterMap (fun c =>
    match c.duration with
    | some d => if d.num = 0 then none else some d
    | none => none)
  { hour := key, timestamp := now - (i : PyFloat) * 3600, calls := matching.length,
    errors := (matching.filter (fun c => !c.success)).length,
    avg_duration := if durs.isEmpty then 0 else durs.foldl (· + ·) 0 / (durs.length : PyFloat) }

-- ### Concrete inputs used by counterexamples and witnesses

/-- An event whose caller already set a timestamp. -/
def tsEvent : Event := { type := "x", ts := some 42 }

/-- A plain event without caller timestamp. -/
def plainEvent : Event := { type := "y" }

/-- A subscription on a fresh bus followed by one 5-second idle timeout. -/
def hbRun : RunState := runSteps (subscribe initialBus 1 none 0) [SysStep.hb 10]

/-- One completed call inside the heatmap's query interval but in the
fractional hour below the oldest bucket key (`now = 5400`, `hours = 1`:
cutoff `1800`, bucket key `1`, call hour `0`). -/
def heatCexCall : ToolCall :=
  { tool_name := "t", start_time := 3000, end_time := some 3001, duration := some 1 }

/-- A bus with one registered subscriber with an empty queue. -/
def busWithSub : BusState := { SEQ := 0, RING := [], SUBS := [{ id := 1, items := [] }] }

/-- Two publishes: one without and one with a caller timestamp. -/
def ps2 : List (PyFloat × Event) := [(0, plainEvent), (1, tsEvent)]

/-- More publishes than the ring holds. -/
def ps5001 : List (PyFloat × Event) := List.replicate 5001 (0, plainEvent)

/-- A metrics entry with a nonzero concurrent counter, and a world
holding it (used to witness the increment-when-present branch). -/
def mDemo : ToolMetrics := { name := "demo_tool", category := "analysis", concurrent_calls := 3 }

def worldWithMetrics : MetricsWorld :=
  { coll := { _tool_metrics := [("demo_tool", mDemo)] }, bus := initialBus }

/-- The active call minted by `startedOnce`. -/
def callDemo : ToolCall := { tool_name := "demo_tool", start_time := 5 }

/-- One start call on the fresh world (used by several witnesses). -/
def startedOnce : String × MetricsWorld := start_tool_call 5 "demo_tool" "" "" "" [] freshWorld

/-- Invariant of one client's run: the sequence numbers of the event
frames it has yielded, followed by the contents of its queue (its future
deliveries), are strictly increasing and bounded by the global counter. -/
def RunInv (rs : RunState) : Prop :=
  List.Pairwise (· < ·) (eventSeqs rs.frames ++ (myQueue rs).map PackedEvent.seq)
  ∧ ∀ s ∈ eventSeqs rs.frames ++ (myQueue rs).map PackedEvent.seq, s ≤ rs.bus.SEQ

-- ### Basic bookkeeping lemmas for the bus

theorem publish_SEQ (now : PyFloat) (evt : Event) (st : BusState) :
    (publish now evt st).SEQ = st.SEQ + 1 := rfl

theorem publish_SUBS (now : PyFloat) (evt : Event) (st : BusState) :
    (publish now evt st).SUBS = st.SUBS.map (put_nowait (_pack_event now evt st).1) := rfl

theorem publishAll_cons (p : PyFloat × Event) (ps : List (PyFloat × Event)) (st : BusState) :
    publishAll (p :: ps) st = publishAll ps (publish p.1 p.2 st) := rfl

theorem publishAll_SEQ (ps : List (PyFloat × Event)) (st : BusState) :
    (publishAll ps st).SEQ = st.SEQ + ps.length := by
  induction ps generalizing st with
  | nil => simp [publishAll]
  | cons p ps ih =>
      rw [publishAll_cons, ih, publish_SEQ]
      simp
      omega

theorem packedList_length (ps : List (PyFloat × Event)) (s : Nat) :
    (packedList ps s).length = ps.length := by
  induction ps generalizing s with
  | nil => rfl
  | cons p ps ih => simp [packedList, ih]

theorem packedList_map_seq (ps : List (PyFloat × Event)) (s : Nat) :
    (packedList ps s).map PackedEvent.seq = List.range' (s + 1) ps.length := by
  induction ps generalizing s with
  | nil => rfl
  | cons p ps ih => simp [packedList, List.range'_succ, ih]

-- ### Ring-buffer characterization

theorem lastN_eq_self {n : Nat} {l : List α} (h : l.length ≤ n) : lastN n l = l := by
  simp [lastN, Nat.sub_eq_zero_of_le h]

theorem lastN_length (n : Nat) (l : List α) : (lastN n l).length = min n l.length := by
  simp [lastN]
  omega

/-- Truncating to the last `n`, appending, and truncating again loses
nothing beyond what a single final truncation loses. -/
theorem lastN_lastN_append (n : Nat) (A B : List α) :
    lastN n (lastN n A ++ B) = lastN n (A ++ B) := by
  unfold lastN
  rw [List.drop_append_eq_append_drop, List.drop_append_eq_append_drop, List.drop_drop]
  have hlen : (A.drop (A.length - n)).length = A.length - (A.length - n) := by
    simp
  congr 1
  · congr 1
    simp only [List.length_append, hlen]
    omega
  · congr 1
    simp only [List.length_append, hlen]
    omega

theorem ringAppend_eq {ring : List PackedEvent} (e : PackedEvent)
    (h : ring.length ≤ RING_MAX) :
    ringAppend ring e = lastN RING_MAX (ring ++ [e]) := by
  unfold ringAppend lastN
  simp only [List.length_append, List.length_cons, List.length_nil]
  by_cases hc : RING_MAX < ring.length + 1
  · have h1 : ring.length + 0 + 1 - RING_MAX = 1 := by omega
    rw [if_pos (by simpa using hc), h1, List.drop_one]
  · rw [if_neg (by simpa using hc)]
    have : ring.length + 0 + 1 - RING_MAX = 0 := by omega
    simp [this]

theorem ringAppend_length {ring : List PackedEvent} (e : PackedEvent)
    (h : ring.length ≤ RING_MAX) :
    (ringAppend ring e).length ≤ RING_MAX := by
  rw [ringAppend_eq e h, lastN_length]
  omega

/-- After any sequence of publishes the ring holds exactly the most
recent `RING_MAX` of all events ever appended (starting from a state
whose ring is within capacity). -/
theorem publishAll_RING (ps : List (PyFloat × Event)) (st : BusState)
    (h : st.RING.length ≤ RING_MAX) :
    (publishAll ps st).RING = lastN RING_MAX (st.RING ++ packedList ps st.SEQ) := by
  induction ps generalizing st with
  | nil => simpa [publishAll, packedList] using (lastN_eq_self h).symm
  | cons p ps ih =>
      rw [publishAll_cons]
      have hr : (publish p.1 p.2 st).RING = ringAppend st.RING (_pack_event p.1 p.2 st).1 := rfl
      have hs : (publish p.1 p.2 st).SEQ = st.SEQ + 1 := rfl
      rw [ih (publish p.1 p.2 st) (by rw [hr]; exact ringAppend_length _ h), hr, hs,
        ringAppend_eq _ h, lastN_lastN_append]
      congr 1
      simp [packedList, _pack_event, _next_seq]

theorem range'_drop (k s n : Nat) :
    (List.range' s n).drop k = List.range' (s + k) (n - k) := by
  induction k generalizing s n with
  | zero => simp
  | succ k ih =>
      cases n with
      | zero => simp
      | succ n =>
          have h1 : s + 1 + k = s + (k + 1) := by omega
          have h2 : n - k = n + 1 - (k + 1) := by omega
          rw [List.range'_succ, List.drop_succ_cons, ih, h1, h2]

-- ### The bus invariant: sorted, bounded sequence numbers everywhere

theorem businv_initial : BusInv initialBus := by
  constructor
  · exact ⟨List.Pairwise.nil, by intro e he; simp [initialBus] at he⟩
  · intro q hq; simp [initialBus] at hq

/-- Appending a strictly larger sequence number preserves sortedness. -/
theorem pairwise_snoc {l : List PackedEvent} {x : PackedEvent}
    (hl : List.Pairwise (fun a b => a.seq < b.seq) l)
    (hx : ∀ e ∈ l, e.seq < x.seq) :
    List.Pairwise (fun a b => a.seq < b.seq) (l ++ [x]) := by
  rw [List.pairwise_append]
  refine ⟨hl, List.pairwise_singleton _ _, ?_⟩
  intro a ha b hb
  simp at hb
  subst hb
  exact hx a ha

theorem ringAppend_sublist (ring : List PackedEvent) (e : PackedEvent) :
    (ringAppend ring e).Sublist (ring ++ [e]) := by
  rw [show ringAppend ring e
      = if RING_MAX < (ring ++ [e]).length then (ring ++ [e]).tail else ring ++ [e] from rfl]
  split
  · exact List.tail_sublist _
  · exact List.Sublist.refl _

theorem publish_BusInv {st : BusState} (now : PyFloat) (evt : Event) (h : BusInv st) :
    BusInv (publish now evt st) := by
  obtain ⟨⟨hring, hringle⟩, hsubs⟩ := h
  have hpk : (_pack_event now evt st).1.seq = st.SEQ + 1 := rfl
  have happ : List.Pairwise (fun a b => a.seq < b.seq)
      (st.RING ++ [(_pack_event now evt st).1]) :=
    pairwise_snoc hring (by intro e he; rw [hpk]; exact Nat.lt_succ_of_le (hringle e he))
  constructor
  · constructor
    · exact happ.sublist (ringAppend_sublist _ _)
    · intro e he
      show e.seq ≤ st.SEQ + 1
      have hmem : e ∈ st.RING ++ [(_pack_event now evt st).1] :=
        (ringAppend_sublist _ _).mem he
      rcases List.mem_append.mp hmem with h1 | h1
      · exact Nat.le_succ_of_le (hringle e h1)
      · simp at h1; subst h1; rw [hpk]
  · intro q hq
    rw [publish_SUBS] at hq
    obtain ⟨q0, hq0, rfl⟩ := List.mem_map.mp hq
    obtain ⟨hqp, hqle⟩ := hsubs q0 hq0
    unfold put_nowait
    split
    · constructor
      · exact pairwise_snoc hqp
          (by intro e he; rw [hpk]; exact Nat.lt_succ_of_le (hqle e he))
      · intro e he
        show e.seq ≤ st.SEQ + 1
        simp at he
        rcases he with h1 | h1
        · exact Nat.le_succ_of_le (hqle e h1)
        · subst h1; rw [hpk]
    · exact ⟨hqp, fun e he => Nat.le_succ_of_le (hqle e he)⟩

theorem publishAll_BusInv {st : BusState} (ps : List (PyFloat × Event)) (h : BusInv st) :
    BusInv (publishAll ps st) := by
  induction ps generalizing st with
  | nil => exact h
  | cons p ps ih => exact ih (publish_BusInv p.1 p.2 h)

theorem packedList_drop (ps : List (PyFloat × Event)) (s d : Nat) :
    (packedList ps s).drop d = packedList (ps.drop d) (s + d) := by
  induction d generalizing ps s with
  | zero => simp
  | succ d ih =>
      cases ps with
      | nil => simp [packedList]
      | cons p ps =>
          show (packedList ps (s + 1)).drop d = _
          rw [ih]
          have h1 : s + 1 + d = s + (d + 1) := by omega
          rw [h1]
          rfl

theorem packedList_filter_since (ps : List (PyFloat × Event)) (s S : Nat) :
    (packedList ps s).filter (fun e => S < e.seq) = (packedList ps s).drop (S - s) := by
  induction ps generalizing s with
  | nil => simp [packedList]
  | cons p ps ih =>
      simp only [packedList, List.filter_cons]
      by_cases h : S < s + 1
      · have h0 : S - s = 0 := by omega
        have h1 : S - (s + 1) = 0 := by omega
        rw [if_pos (by simpa using h), h0, List.drop_zero, ih, h1, List.drop_zero]
      · have h1 : S - s = (S - (s + 1)) + 1 := by omega
        rw [if_neg (by simpa using h), ih, h1, List.drop_succ_cons]

/-- On a bus freshly reached by `publishAll`, replaying from `S` yields
exactly the suffix of the published list after position `S`, provided at
most `RING_MAX` events were published after `S`. -/
theorem replayEvents_publishAll (ps : List (PyFloat × Event)) (S : Nat)
    (hS : S ≤ ps.length) (hN : ps.length - S ≤ RING_MAX) :
    replayEvents (publishAll ps initialBus).RING S = packedList (ps.drop S) S := by
  have h0 : initialBus.RING.length ≤ RING_MAX := by simp [initialBus]
  have hr := publishAll_RING ps initialBus h0
  rw [show initialBus.RING ++ packedList ps initialBus.SEQ = packedList ps 0 from rfl] at hr
  unfold lastN at hr
  rw [packedList_length, packedList_drop] at hr
  set d := ps.length - RING_MAX with hd
  unfold replayEvents
  rw [hr, packedList_filter_since, packedList_drop, List.drop_drop]
  have hdS : d ≤ S := by omega
  have e1 : d + (S - (0 + d)) = S := by omega
  have e2 : 0 + d + (S - (0 + d)) = S := by omega
  rw [e1, e2]

theorem replay_map_seq (ps : List (PyFloat × Event)) (S : Nat)
    (hS : S ≤ ps.length) (hN : ps.length - S ≤ RING_MAX) :
    (replayEvents (publishAll ps initialBus).RING S).map PackedEvent.seq
      = List.range' (S + 1) (ps.length - S) := by
  rw [replayEvents_publishAll ps S hS hN, packedList_map_seq, List.length_drop]

-- ### Frames only ever get appended by the live loop

theorem stepRun_frames (rs : RunState) (s : SysStep) :
    ∃ t, (stepRun rs s).frames = rs.frames ++ t := by
  cases s with
  | pub now evt => exact ⟨[], by simp [stepRun]⟩
  | recv =>
      cases hq : myQueue rs with
      | nil => exact ⟨[], by simp [stepRun, hq]⟩
      | cons e rest => exact ⟨[Frame.event e], by simp [stepRun, hq]⟩
  | hb now =>
      by_cases h : (5 : PyFloat) ≤ now - rs.lastHb
      · exact ⟨[Frame.heartbeat rs.bus.SEQ now rs.bus.SUBS.length], by simp [stepRun, h]⟩
      · exact ⟨[], by simp [stepRun, h]⟩

theorem runSteps_frames (rs : RunState) (steps : List SysStep) :
    ∃ t, (runSteps rs steps).frames = rs.frames ++ t := by
  induction steps generalizing rs with
  | nil => exact ⟨[], by simp [runSteps]⟩
  | cons s steps ih =>
      obtain ⟨t1, h1⟩ := stepRun_frames rs s
      obtain ⟨t2, h2⟩ := ih (stepRun rs s)
      refine ⟨t1 ++ t2, ?_⟩
      rw [show runSteps rs (s :: steps) = runSteps (stepRun rs s) steps from rfl, h2, h1,
        List.append_assoc]

-- ### Claim theorems: the event bus

/-- C1: sequence numbers are assigned by `publish` via `_next_seq`:
after the `(i+1)`-st publish the counter — which is exactly the sequence
stamped on that event, see the middle conjunct — is `st0.SEQ + i + 1`,
so successive publishes get strictly increasing, unique, gap-free
(+1-stepped) sequence numbers; and every subscriber queue (FIFO delivery
order) is strictly increasing in sequence, so a subscriber that receives
both of two events receives the earlier-published one first. -/
theorem C1_ordering (ps : List (PyFloat × Event)) (st0 : BusState) (i : Nat)
    (now : PyFloat) (evt : Event) (st : BusState) (q : Subscriber)
    (hinv : BusInv st0) (hi : i < ps.length) (hq : q ∈ (publishAll ps st0).SUBS) :
    (publishAll (ps.take (i + 1)) st0).SEQ = st0.SEQ + i + 1
    ∧ (_pack_event now evt st).1.seq = (_pack_event now evt st).2.SEQ
    ∧ List.Pairwise (fun a b => a.seq < b.seq) q.items := by
  refine ⟨?_, rfl, ?_⟩
  · rw [publishAll_SEQ, List.length_take]
    omega
  · exact ((publishAll_BusInv ps hinv).2 q hq).1

theorem businv_busWithSub : BusInv busWithSub := by
  constructor
  · exact ⟨List.Pairwise.nil, by intro e he; simp [busWithSub] at he⟩
  · intro q hq
    simp only [busWithSub, List.mem_singleton] at hq
    subst hq
    exact ⟨List.Pairwise.nil, by intro e he; simp at he⟩

/-- C1 witness: two publishes on a one-subscriber bus. -/
theorem C1_ordering_witness :
    BusInv busWithSub ∧ 1 < ps2.length
    ∧ ⟨1, [{ type := "y", ts := 0, seq := 1 }, { type := "x", ts := 42, seq := 2 }]⟩
        ∈ (publishAll ps2 busWithSub).SUBS
    ∧ ((publishAll (ps2.take 2) busWithSub).SEQ = busWithSub.SEQ + 1 + 1
      ∧ (_pack_event 0 plainEvent initialBus).1.seq
          = (_pack_event 0 plainEvent initialBus).2.SEQ
      ∧ List.Pairwise (fun a b => a.seq < b.seq)
          (Subscriber.items ⟨1, [{ type := "y", ts := 0, seq := 1 },
                                 { type := "x", ts := 42, seq := 2 }]⟩)) :=
  ⟨businv_busWithSub, by decide, by decide,
    C1_ordering ps2 busWithSub 1 0 plainEvent initialBus _
      businv_busWithSub (by decide) (by decide)⟩

/-- C3: starting from the fresh bus, after publishing `ps` the ring
holds `min RING_MAX ps.length` events (so its size never exceeds
`RING_MAX`), it is sorted by sequence ascending, and once more than
`RING_MAX` events have been published it is exactly the suffix of the
published list past the oldest evicted events — the `RING_MAX` most
recent, evicted oldest-first. -/
theorem C3_ring_bounded (ps : List (PyFloat × Event)) (st : BusState)
    (hst : st = publishAll ps initialBus) :
    st.RING.length = min RING_MAX ps.length
    ∧ List.Pairwise (fun a b => a.seq < b.seq) st.RING
    ∧ (RING_MAX < ps.length → st.RING = (packedList ps 0).drop (ps.length - RING_MAX)) := by
  subst hst
  have h0 : initialBus.RING.length ≤ RING_MAX := by simp [initialBus]
  have hr := publishAll_RING ps initialBus h0
  rw [show initialBus.RING ++ packedList ps initialBus.SEQ = packedList ps 0 from rfl] at hr
  refine ⟨?_, ((publishAll_BusInv ps businv_initial).1).1, ?_⟩
  · rw [hr, lastN_length, packedList_length]
  · intro _
    rw [hr]
    unfold lastN
    rw [packedList_length]

/-- C3 witness: 5001 publishes overflow the 5000-slot ring. -/
theorem C3_ring_bounded_witness :
    (publishAll ps5001 initialBus = publishAll ps5001 initialBus)
    ∧ RING_MAX < ps5001.length
    ∧ ((publishAll ps5001 initialBus).RING.length = min RING_MAX ps5001.length
      ∧ List.Pairwise (fun a b => a.seq < b.seq) (publishAll ps5001 initialBus).RING
      ∧ (publishAll ps5001 initialBus).RING
          = (packedList ps5001 0).drop (ps5001.length - RING_MAX)) :=
  have h : RING_MAX < ps5001.length := by
    unfold ps5001 RING_MAX
    rw [List.length_replicate]
    omega
  ⟨rfl, h,
    (C3_ring_bounded ps5001 _ rfl).1,
    (C3_ring_bounded ps5001 _ rfl).2.1,
    (C3_ring_bounded ps5001 _ rfl).2.2 h⟩

/-- C4: `publish` maps `put_nowait` uniformly over the subscriber set —
it never removes a subscriber (ids are preserved; only the `finally`
clause of `stream` removes a queue, on disconnect/cancellation) and, per
queue, a full queue drops just that event for just that subscriber
(with a logged warning, not modelled) while any queue with room receives
it; `publish` is a total function, so nothing is raised to the caller. -/
theorem C4_publish_isolation (now : PyFloat) (evt : Event) (st : BusState)
    (q : Subscriber) (_hq : q ∈ st.SUBS) :
    (publish now evt st).SUBS = st.SUBS.map (put_nowait (_pack_event now evt st).1)
    ∧ (publish now evt st).SUBS.map Subscriber.id = st.SUBS.map Subscriber.id
    ∧ (put_nowait (_pack_event now evt st).1 q).items
        = (if q.items.length < QUEUE_MAXSIZE
           then q.items ++ [(_pack_event now evt st).1] else q.items)
    ∧ (put_nowait (_pack_event now evt st).1 q).id = q.id := by
  refine ⟨rfl, ?_, ?_, ?_⟩
  · rw [publish_SUBS, List.map_map]
    congr 1
    funext q'
    show (put_nowait (_pack_event now evt st).1 q').id = q'.id
    unfold put_nowait
    split <;> rfl
  · unfold put_nowait
    by_cases hcond : q.items.length < QUEUE_MAXSIZE
    · rw [if_pos hcond, if_pos hcond]
    · rw [if_neg hcond, if_neg hcond]
  · unfold put_nowait
    split <;> rfl

/-- C4 witness: publishing over the one-subscriber bus. -/
theorem C4_publish_isolation_witness :
    (⟨1, []⟩ : Subscriber) ∈ busWithSub.SUBS
    ∧ ((publish 0 plainEvent busWithSub).SUBS
        = busWithSub.SUBS.map (put_nowait (_pack_event 0 plainEvent busWithSub).1)
      ∧ (publish 0 plainEvent busWithSub).SUBS.map Subscriber.id
          = busWithSub.SUBS.map Subscriber.id
      ∧ (put_nowait (_pack_event 0 plainEvent busWithSub).1 ⟨1, []⟩).items
          = (if ([] : List PackedEvent).length < QUEUE_MAXSIZE
             then [] ++ [(_pack_event 0 plainEvent busWithSub).1] else [])
      ∧ (put_nowait (_pack_event 0 plainEvent busWithSub).1 ⟨1, []⟩).id
          = (⟨1, []⟩ : Subscriber).id) :=
  ⟨by decide, C4_publish_isolation 0 plainEvent busWithSub ⟨1, []⟩ (by decide)⟩

/-- C5 counterexample: the bus does *not* overwrite a caller-supplied
timestamp — `_pack_event` uses `setdefault`, so an event published at
bus time 100 with caller timestamp 42 keeps `ts = 42`. -/
theorem C5_counterexample :
    (_pack_event 100 tsEvent initialBus).1.ts = 42
    ∧ (_pack_event 100 tsEvent initialBus).1.ts ≠ 100 := by
  exact ⟨rfl, by decide⟩

/-- C5 amended: the sequence is always overwritten (both on the packed
event and as the new counter), while the timestamp is `setdefault`-style:
the caller's value is kept and the bus's publication time is used only
when the caller omitted it. -/
theorem C5_assignment (now : PyFloat) (evt : Event) (st : BusState) :
    (_pack_event now evt st).1.seq = st.SEQ + 1
    ∧ (_pack_event now evt st).2.SEQ = st.SEQ + 1
    ∧ (_pack_event now evt st).1.ts = evt.ts.getD now
    ∧ (evt.ts = none → (_pack_event now evt st).1.ts = now) := by
  refine ⟨rfl, rfl, rfl, ?_⟩
  intro h
  simp [_pack_event, h]

/-- C5 witness: packing an event without a caller timestamp. -/
theorem C5_assignment_witness :
    plainEvent.ts = none
    ∧ ((_pack_event 100 plainEvent initialBus).1.seq = initialBus.SEQ + 1
      ∧ (_pack_event 100 plainEvent initialBus).2.SEQ = initialBus.SEQ + 1
      ∧ (_pack_event 100 plainEvent initialBus).1.ts = plainEvent.ts.getD 100
      ∧ (plainEvent.ts = none → (_pack_event 100 plainEvent initialBus).1.ts = 100)) :=
  ⟨rfl, C5_assignment 100 plainEvent initialBus⟩

/-- C2: after `ps` publishes on a fresh bus (counter `ps.length`), a
client that observed up to `S` and resubscribes with `since = S`, with
fewer than `RING_MAX` events published since `S`, first receives every
event with sequence in `(S, current]` exactly once in ascending order —
the replay frames' sequences are exactly `S+1, …, ps.length` — and the
ready marker and all live frames come only after the replay. -/
theorem C2_replay_complete (ps : List (PyFloat × Event)) (S : Nat) (id : Nat)
    (now : PyFloat) (steps : List SysStep) (st : BusState)
    (hst : st = publishAll ps initialBus)
    (hS : S ≤ ps.length) (hN : ps.length - S < RING_MAX) :
    (replayEvents st.RING S).map PackedEvent.seq = List.range' (S + 1) (ps.length - S)
    ∧ st.SEQ = ps.length
    ∧ ∃ rest, (runSteps (subscribe st id (some S) now) steps).frames
        = ((replayEvents st.RING S).map Frame.event)
          ++ (Frame.ready st.SEQ now (st.SUBS.length + 1) :: rest) := by
  subst hst
  refine ⟨replay_map_seq ps S hS (le_of_lt hN), ?_, ?_⟩
  · rw [publishAll_SEQ]
    simp [initialBus]
  · obtain ⟨t, ht⟩ :=
      runSteps_frames (subscribe (publishAll ps initialBus) id (some S) now) steps
    refine ⟨t, ?_⟩
    rw [ht]
    simp [subscribe, List.append_assoc]

/-- C2 witness: two publishes, resubscribe from `S = 1`, one live step. -/
theorem C2_replay_complete_witness :
    publishAll ps2 initialBus = publishAll ps2 initialBus
    ∧ 1 ≤ ps2.length ∧ ps2.length - 1 < RING_MAX
    ∧ ((replayEvents (publishAll ps2 initialBus).RING 1).map PackedEvent.seq
        = List.range' (1 + 1) (ps2.length - 1)
      ∧ (publishAll ps2 initialBus).SEQ = ps2.length
      ∧ ∃ rest, (runSteps (subscribe (publishAll ps2 initialBus) 7 (some 1) 50)
            [SysStep.recv]).frames
          = ((replayEvents (publishAll ps2 initialBus).RING 1).map Frame.event)
            ++ (Frame.ready (publishAll ps2 initialBus).SEQ 50
                  ((publishAll ps2 initialBus).SUBS.length + 1) :: rest)) :=
  ⟨rfl, by decide, by decide,
    C2_replay_complete ps2 1 7 50 [SysStep.recv] _ rfl (by decide) (by decide)⟩

-- ### The run invariant: event frames are delivered in sequence order

theorem find?_map_id_pres {l : List Subscriber} {f : Subscriber → Subscriber}
    (hf : ∀ q, (f q).id = q.id) (i : Nat) :
    (l.map f).find? (fun q => q.id == i) = (l.find? (fun q => q.id == i)).map f := by
  induction l with
  | nil => rfl
  | cons q l ih =>
      simp only [List.map_cons, List.find?_cons, hf q]
      cases hq : (q.id == i) with
      | true => rfl
      | false => exact ih

theorem put_nowait_id (e : PackedEvent) (q : Subscriber) : (put_nowait e q).id = q.id := by
  unfold put_nowait
  split <;> rfl

/-- Publishing either leaves this client's queue alone (not registered,
or full) or appends the newly packed event to its end. -/
theorem myQueue_publish (rs : RunState) (now : PyFloat) (evt : Event) :
    myQueue { rs with bus := publish now evt rs.bus } = myQueue rs
    ∨ myQueue { rs with bus := publish now evt rs.bus }
        = myQueue rs ++ [(_pack_event now evt rs.bus).1] := by
  unfold myQueue
  show (((publish now evt rs.bus).SUBS.find? (fun q => q.id == rs.myId)).map
      Subscriber.items).getD [] = _ ∨ _
  rw [publish_SUBS, find?_map_id_pres (put_nowait_id _)]
  cases h : rs.bus.SUBS.find? (fun q => q.id == rs.myId) with
  | none => left; simp [h]
  | some q =>
      unfold put_nowait
      by_cases hlen : q.items.length < QUEUE_MAXSIZE
      · right
        simp [h, hlen]
      · left
        simp [h, hlen]

/-- After replacing this client's queue contents, its queue reads back
exactly those contents (provided the client is registered). -/
theorem myQueue_setMyQueue (rs : RunState) (items : List PackedEvent)
    (h : (rs.bus.SUBS.find? (fun q => q.id == rs.myId)).isSome) :
    myQueue (setMyQueue rs items) = items := by
  obtain ⟨q0, hq0⟩ := Option.isSome_iff_exists.mp h
  have hid : ∀ q : Subscriber,
      ((fun q : Subscriber => if q.id == rs.myId then { q with items := items } else q) q).id
        = q.id := by
    intro q
    dsimp only
    split <;> rfl
  unfold myQueue setMyQueue
  simp only
  rw [find?_map_id_pres hid, hq0]
  have hpred := List.find?_some hq0
  simp only at hpred
  have heq : q0.id = rs.myId := by simpa using hpred
  simp [heq]

theorem myQueue_nonempty_isSome {rs : RunState} {e : PackedEvent} {rest : List PackedEvent}
    (h : myQueue rs = e :: rest) :
    (rs.bus.SUBS.find? (fun q => q.id == rs.myId)).isSome := by
  unfold myQueue at h
  cases hf : rs.bus.SUBS.find? (fun q => q.id == rs.myId) with
  | none => rw [hf] at h; simp at h
  | some q => rfl

theorem eventSeqs_append (fs gs : List Frame) :
    eventSeqs (fs ++ gs) = eventSeqs fs ++ eventSeqs gs := by
  unfold eventSeqs
  exact List.filterMap_append ..

theorem eventSeqs_event (e : PackedEvent) : eventSeqs [Frame.event e] = [e.seq] := rfl

theorem eventSeqs_heartbeat (s : Nat) (t : PyFloat) (n : Nat) :
    eventSeqs [Frame.heartbeat s t n] = [] := rfl

/-- Appending one strictly-larger element keeps a `Nat` list strictly
increasing. -/
theorem pairwise_lt_snoc {l : List Nat} {x : Nat}
    (hl : List.Pairwise (· < ·) l) (hx : ∀ a ∈ l, a < x) :
    List.Pairwise (· < ·) (l ++ [x]) := by
  rw [List.pairwise_append]
  refine ⟨hl, List.pairwise_singleton _ _, ?_⟩
  intro a ha b hb
  simp at hb
  subst hb
  exact hx a ha

theorem stepRun_RunInv {rs : RunState} (h : RunInv rs) (s : SysStep) :
    RunInv (stepRun rs s) := by
  obtain ⟨hpw, hle⟩ := h
  cases s with
  | pub now evt =>
      have hbus : stepRun rs (SysStep.pub now evt)
          = { rs with bus := publish now evt rs.bus } := rfl
      have hpe : List.map PackedEvent.seq [(_pack_event now evt rs.bus).1]
          = [rs.bus.SEQ + 1] := rfl
      rw [hbus]
      rcases myQueue_publish rs now evt with hq | hq
      · refine ⟨?_, ?_⟩
        · show List.Pairwise (· < ·) (eventSeqs rs.frames
            ++ (myQueue { rs with bus := publish now evt rs.bus }).map PackedEvent.seq)
          rw [hq]
          exact hpw
        · intro a ha
          have ha2 : a ∈ eventSeqs rs.frames
              ++ (myQueue { rs with bus := publish now evt rs.bus }).map PackedEvent.seq := ha
          rw [hq] at ha2
          show a ≤ (publish now evt rs.bus).SEQ
          rw [publish_SEQ]
          exact Nat.le_succ_of_le (hle a ha2)
      · refine ⟨?_, ?_⟩
        · show List.Pairwise (· < ·) (eventSeqs rs.frames
            ++ (myQueue { rs with bus := publish now evt rs.bus }).map PackedEvent.seq)
          rw [hq, List.map_append, ← List.append_assoc, hpe]
          exact pairwise_lt_snoc hpw (fun a ha => Nat.lt_succ_of_le (hle a ha))
        · intro a ha
          have ha2 : a ∈ eventSeqs rs.frames
              ++ (myQueue { rs with bus := publish now evt rs.bus }).map PackedEvent.seq := ha
          rw [hq, List.map_append, ← List.append_assoc, hpe] at ha2
          show a ≤ (publish now evt rs.bus).SEQ
          rw [publish_SEQ]
          rcases List.mem_append.mp ha2 with h1 | h1
          · exact Nat.le_succ_of_le (hle a h1)
          · rw [List.mem_singleton.mp h1]
  | recv =>
      show RunInv (match myQueue rs with
        | [] => rs
        | e :: rest => { setMyQueue rs rest with frames := rs.frames ++ [Frame.event e] })
      cases hq : myQueue rs with
      | nil =>
          rw [hq] at hpw hle
          exact ⟨by rw [hq]; exact hpw, by rw [hq]; exact hle⟩
      | cons e rest =>
          have hsome := myQueue_nonempty_isSome hq
          have hset : myQueue (setMyQueue rs rest) = rest := myQueue_setMyQueue rs rest hsome
          have hmq : myQueue { setMyQueue rs rest with
              frames := rs.frames ++ [Frame.event e] } = rest := hset
          have hcomb :
              eventSeqs (rs.frames ++ [Frame.event e]) ++ rest.map PackedEvent.seq
                = eventSeqs rs.frames ++ (myQueue rs).map PackedEvent.seq := by
            rw [eventSeqs_append, eventSeqs_event, hq, List.append_assoc]
            rfl
          refine ⟨?_, ?_⟩
          · show List.Pairwise (· < ·) (eventSeqs (rs.frames ++ [Frame.event e])
              ++ (myQueue { setMyQueue rs rest with
                    frames := rs.frames ++ [Frame.event e] }).map PackedEvent.seq)
            rw [hmq, hcomb]
            exact hpw
          · intro a ha
            have ha2 : a ∈ eventSeqs (rs.frames ++ [Frame.event e])
                ++ (myQueue { setMyQueue rs rest with
                      frames := rs.frames ++ [Frame.event e] }).map PackedEvent.seq := ha
            rw [hmq, hcomb] at ha2
            show a ≤ rs.bus.SEQ
            exact hle a ha2
  | hb now =>
      have hstep : stepRun rs (SysStep.hb now)
          = if (5 : PyFloat) ≤ now - rs.lastHb then { rs with lastHb := now, frames := rs.frames ++ [Frame.heartbeat rs.bus.SEQ now rs.bus.SUBS.length] } else rs := rfl
      rw [hstep]
      by_cases hc : (5 : PyFloat) ≤ now - rs.lastHb
      · rw [if_pos hc]
        have hev : eventSeqs (rs.frames
            ++ [Frame.heartbeat rs.bus.SEQ now rs.bus.SUBS.length]) = eventSeqs rs.frames := by
          rw [eventSeqs_append, eventSeqs_heartbeat, List.append_nil]
        refine ⟨?_, ?_⟩
        · show List.Pairwise (· < ·)
            (eventSeqs (rs.frames ++ [Frame.heartbeat rs.bus.SEQ now rs.bus.SUBS.length])
              ++ (myQueue rs).map PackedEvent.seq)
          rw [hev]
          exact hpw
        · intro a ha
          have ha2 : a ∈ eventSeqs (rs.frames
              ++ [Frame.heartbeat rs.bus.SEQ now rs.bus.SUBS.length])
              ++ (myQueue rs).map PackedEvent.seq := ha
          rw [hev] at ha2
          show a ≤ rs.bus.SEQ
          exact hle a ha2
      · rw [if_neg hc]
        exact ⟨hpw, hle⟩

theorem runSteps_RunInv {rs : RunState} (h : RunInv rs) (steps : List SysStep) :
    RunInv (runSteps rs steps) := by
  induction steps generalizing rs with
  | nil => exact h
  | cons s steps ih => exact ih (stepRun_RunInv h s)

theorem myQueue_subscribe (st : BusState) (id : Nat) (since : Option Nat) (now : PyFloat)
    (hfresh : ∀ q ∈ st.SUBS, q.id ≠ id) :
    myQueue (subscribe st id since now) = [] := by
  unfold myQueue subscribe
  simp only
  rw [List.find?_append]
  have h1 : st.SUBS.find? (fun q => q.id == id) = none := by
    rw [List.find?_eq_none]
    intro q hq
    simp [hfresh q hq]
  rw [h1, Option.none_or]
  simp [List.find?]

theorem eventSeqs_map_event (l : List PackedEvent) :
    eventSeqs (l.map Frame.event) = l.map PackedEvent.seq := by
  unfold eventSeqs
  rw [List.filterMap_map]
  exact List.filterMap_eq_map _ ▸ rfl

theorem eventSeqs_replay_ready (l : List PackedEvent) (a : Nat) (b : PyFloat) (c : Nat) :
    eventSeqs (l.map Frame.event ++ [Frame.ready a b c]) = l.map PackedEvent.seq := by
  rw [eventSeqs_append, eventSeqs_map_event]
  show l.map PackedEvent.seq ++ [] = _
  rw [List.append_nil]

/-- Everything one fresh subscriber can still observe right after
`subscribe`: exactly the replay frames (no queue backlog yet). -/
theorem obs_subscribe (st : BusState) (id : Nat) (since : Option Nat) (now : PyFloat)
    (hfresh : ∀ q ∈ st.SUBS, q.id ≠ id) :
    eventSeqs (subscribe st id since now).frames
      ++ (myQueue (subscribe st id since now)).map PackedEvent.seq
      = (match since with
         | some s => (replayEvents st.RING s).map PackedEvent.seq
         | none => []) := by
  rw [myQueue_subscribe st id since now hfresh]
  cases since with
  | none => rfl
  | some s =>
      rw [show (subscribe st id (some s) now).frames
          = (replayEvents st.RING s).map Frame.event
            ++ [Frame.ready st.SEQ now
                  (st.SUBS ++ [({ id := id, items := [] } : Subscriber)]).length]
        from rfl]
      rw [eventSeqs_replay_ready]
      simp

theorem subscribe_RunInv (st : BusState) (id : Nat) (since : Option Nat) (now : PyFloat)
    (hinv : BusInv st) (hfresh : ∀ q ∈ st.SUBS, q.id ≠ id) :
    RunInv (subscribe st id since now) := by
  have hobs := obs_subscribe st id since now hfresh
  have hrep : ∀ s, List.Pairwise (· < ·) ((replayEvents st.RING s).map PackedEvent.seq) := by
    intro s
    refine List.pairwise_map.mpr ?_
    exact List.Pairwise.sublist (List.filter_sublist _) hinv.1.1
  have hrepmem : ∀ s a, a ∈ (replayEvents st.RING s).map PackedEvent.seq → a ≤ st.SEQ := by
    intro s a ha
    obtain ⟨e, he, rfl⟩ := List.mem_map.mp ha
    exact hinv.1.2 e (List.mem_of_mem_filter he)
  constructor
  · rw [hobs]
    cases since with
    | none => exact List.Pairwise.nil
    | some s => exact hrep s
  · intro a ha
    rw [hobs] at ha
    show a ≤ st.SEQ
    cases since with
    | none => simp at ha
    | some s => exact hrepmem s a ha

/-- C8 counterexample: the `server.ready` marker and a later heartbeat
both carry the current counter in their `seq` field, so an idle stream
yields two frames with the same sequence number (`0` here): the claim is
false when the marker and heartbeat frames are counted. -/
theorem C8_counterexample :
    hbRun.frames.map Frame.seqOf = [0, 0]
    ∧ ¬ (hbRun.frames.map Frame.seqOf).Nodup := ⟨by decide, by decide⟩

/-- C8 amended: restricted to *event* frames (the ready marker and
heartbeats carry the current global counter as their `seq` and may
repeat it), a subscriber's delivered sequence numbers are strictly
increasing within one subscription lifetime — hence never duplicated. -/
theorem C8_event_frames_strictly_increasing (st : BusState) (id : Nat)
    (since : Option Nat) (now : PyFloat) (steps : List SysStep)
    (hinv : BusInv st) (hfresh : ∀ q ∈ st.SUBS, q.id ≠ id) :
    List.Pairwise (· < ·)
      (eventSeqs (runSteps (subscribe st id since now) steps).frames) := by
  have h := runSteps_RunInv (subscribe_RunInv st id since now hinv hfresh) steps
  exact List.Pairwise.sublist (List.sublist_append_left _ _) h.1

/-- C8 witness: replay-then-live run over a two-event history. -/
theorem C8_event_frames_witness :
    BusInv (publishAll ps2 initialBus)
    ∧ (∀ q ∈ (publishAll ps2 initialBus).SUBS, q.id ≠ 1)
    ∧ List.Pairwise (· < ·)
        (eventSeqs (runSteps (subscribe (publishAll ps2 initialBus) 1 (some 0) 100)
          [SysStep.recv, SysStep.hb 200]).frames) :=
  ⟨publishAll_BusInv ps2 businv_initial, by decide,
    C8_event_frames_strictly_increasing _ 1 (some 0) 100 [SysStep.recv, SysStep.hb 200]
      (publishAll_BusInv ps2 businv_initial) (by decide)⟩

-- ### Association-list (Python dict) lemmas

theorem alookup_cons {κ β : Type} [DecidableEq κ] (k : κ) (p : κ × β) (l : List (κ × β)) :
    alookup k (p :: l) = if p.1 = k then some p.2 else alookup k l := rfl

theorem alookup_aupdate {κ β : Type} [DecidableEq κ] (k : κ) (f : β → β)
    (l : List (κ × β)) : alookup k (aupdate k f l) = (alookup k l).map f := by
  induction l with
  | nil => rfl
  | cons p l ih =>
      simp only [aupdate] at ih ⊢
      by_cases h : p.1 = k
      · simp [alookup_cons, h]
      · simp [alookup_cons, h, ih]

theorem alookup_aupdate_ne {κ β : Type} [DecidableEq κ] {k k2 : κ} (f : β → β)
    (l : List (κ × β)) (hne : k2 ≠ k) :
    alookup k2 (aupdate k f l) = alookup k2 l := by
  induction l with
  | nil => rfl
  | cons p l ih =>
      simp only [aupdate] at ih ⊢
      have hkk : ¬ (k = k2) := fun hh => hne hh.symm
      by_cases h : p.1 = k
      · simp [alookup_cons, h, hkk, ih]
      · by_cases h2 : p.1 = k2
        · simp [alookup_cons, h, h2, hne]
        · simp [alookup_cons, h, h2, ih]

theorem alookup_aremove_ne {κ β : Type} [DecidableEq κ] {k k2 : κ}
    (l : List (κ × β)) (hne : k2 ≠ k) :
    alookup k2 (aremove k l) = alookup k2 l := by
  induction l with
  | nil => rfl
  | cons p l ih =>
      simp only [aremove] at ih ⊢
      simp only [ne_eq, decide_not] at ih
      have hkk : ¬ (k = k2) := fun hh => hne hh.symm
      by_cases h : p.1 = k
      · simp [List.filter_cons, alookup_cons, h, hkk, ih]
      · by_cases h2 : p.1 = k2
        · simp [List.filter_cons, alookup_cons, h, h2, hne]
        · simp [List.filter_cons, alookup_cons, h, h2, ih]

theorem alookup_append {κ β : Type} [DecidableEq κ] (k : κ) (l1 l2 : List (κ × β)) :
    alookup k (l1 ++ l2) = (alookup k l1).or (alookup k l2) := by
  induction l1 with
  | nil => rfl
  | cons p l ih =>
      rw [List.cons_append, alookup_cons, alookup_cons]
      by_cases h : p.1 = k
      · rw [if_pos h, if_pos h]
        rfl
      · rw [if_neg h, if_neg h]
        exact ih

-- ### What one `end_tool_call` does to the counters

theorem updateMetricsRecord_concurrent (now : PyFloat) (call : ToolCall)
    (completed : List ToolCall) (m : ToolMetrics) :
    (updateMetricsRecord now call completed m).concurrent_calls
      = max 0 (m.concurrent_calls - 1) := by
  unfold updateMetricsRecord
  cases call.success <;> cases call.error <;> cases call.duration <;>
    (dsimp only; split_ifs <;> rfl)

theorem updateMetricsRecord_total (now : PyFloat) (call : ToolCall)
    (completed : List ToolCall) (m : ToolMetrics) :
    (updateMetricsRecord now call completed m).total_calls = m.total_calls + 1 := by
  unfold updateMetricsRecord
  cases call.success <;> cases call.error <;> cases call.duration <;>
    (dsimp only; split_ifs <;> rfl)

/-- The one `end_tool_call` success path, component by component: the
active call is removed, the finalized call is appended to history, and
the tool's metrics entry (created now if absent) gets `total_calls + 1`
and `concurrent_calls` decremented floored at zero. -/
theorem end_tool_call_effect (now : PyFloat) (call_id : String) (success : Bool)
    (error : Option String) (w : MetricsWorld) (call0 : ToolCall)
    (h : alookup call_id w.coll._active_calls = some call0) :
    (end_tool_call now call_id success error w).2.coll._active_calls
        = aremove call_id w.coll._active_calls
    ∧ (end_tool_call now call_id success error w).2.coll._completed_calls
        = w.coll._completed_calls
          ++ [{ call0 with end_time := some now,
                           duration := some (now - call0.start_time),
                           success := success, error := error }]
    ∧ totalOf call0.tool_name (end_tool_call now call_id success error w).2.coll
        = totalOf call0.tool_name w.coll + 1
    ∧ concurrentOf call0.tool_name (end_tool_call now call_id success error w).2.coll
        = max 0 (concurrentOf call0.tool_name w.coll - 1)
    ∧ (∀ t2, t2 ≠ call0.tool_name →
        alookup t2 (end_tool_call now call_id success error w).2.coll._tool_metrics
          = alookup t2 w.coll._tool_metrics) := by
  have hmet : (end_tool_call now call_id success error w).2.coll._tool_metrics
      = _update_tool_metrics now
          { call0 with end_time := some now, duration := some (now - call0.start_time),
                       success := success, error := error }
          (w.coll._completed_calls
            ++ [{ call0 with end_time := some now,
                             duration := some (now - call0.start_time),
                             success := success, error := error }])
          w.coll._tool_metrics := by
    unfold end_tool_call
    rw [h]
  have htn : ({ call0 with end_time := some now,
                           duration := some (now - call0.start_time),
                           success := success, error := error } : ToolCall).tool_name
      = call0.tool_name := rfl
  refine ⟨?_, ?_, ?_, ?_, ?_⟩
  · unfold end_tool_call
    rw [h]
  · unfold end_tool_call
    rw [h]
  · unfold totalOf
    rw [hmet]
    simp only [_update_tool_metrics, htn]
    by_cases hent : (alookup call0.tool_name w.coll._tool_metrics).isSome
    · rw [if_pos hent, alookup_aupdate]
      obtain ⟨m, hm⟩ := Option.isSome_iff_exists.mp hent
      rw [hm]
      show (updateMetricsRecord _ _ _ m).total_calls = m.total_calls + 1
      exact updateMetricsRecord_total ..
    · rw [if_neg hent, alookup_aupdate, alookup_append]
      rw [Option.not_isSome_iff_eq_none] at hent
      rw [hent]
      simp [Option.none_or, alookup_cons, updateMetricsRecord_total]
  · unfold concurrentOf
    rw [hmet]
    simp only [_update_tool_metrics, htn]
    by_cases hent : (alookup call0.tool_name w.coll._tool_metrics).isSome
    · rw [if_pos hent, alookup_aupdate]
      obtain ⟨m, hm⟩ := Option.isSome_iff_exists.mp hent
      rw [hm]
      show (updateMetricsRecord _ _ _ m).concurrent_calls = max 0 (m.concurrent_calls - 1)
      exact updateMetricsRecord_concurrent ..
    · rw [if_neg hent, alookup_aupdate, alookup_append]
      rw [Option.not_isSome_iff_eq_none] at hent
      rw [hent]
      simp [Option.none_or, alookup_cons, updateMetricsRecord_concurrent]
  · intro t2 ht2
    rw [hmet]
    simp only [_update_tool_metrics, htn]
    rw [alookup_aupdate_ne _ _ ht2]
    by_cases hent : (alookup call0.tool_name w.coll._tool_metrics).isSome
    · rw [if_pos hent]
    · rw [if_neg hent, alookup_append, alookup_cons]
      rw [if_neg (fun hh => ht2 hh.symm)]
      show (alookup t2 w.coll._tool_metrics).or (alookup t2 []) = _
      rw [show alookup t2 ([] : List (String × ToolMetrics)) = none from rfl, Option.or_none]

/-- Folding `end_tool_call` over any list of distinct active call ids of
one tool: each end bumps `total_calls` once, and the concurrent counter,
once at zero, stays at zero. -/
theorem endAll_spec (t : String) (now : PyFloat) (ids : List String) :
    ∀ w : MetricsWorld,
    (∀ id ∈ ids, activeCallFor t id w.coll = true) → ids.Nodup →
    concurrentOf t w.coll = 0 →
    totalOf t (endAll now ids w).coll = totalOf t w.coll + ids.length
    ∧ concurrentOf t (endAll now ids w).coll = 0 := by
  induction ids with
  | nil =>
      intro w _ _ h0
      exact ⟨by simp [endAll], by simpa [endAll] using h0⟩
  | cons id ids ih =>
      intro w hact hnd h0
      have hid := hact id (List.mem_cons_self id ids)
      unfold activeCallFor at hid
      cases hcall : alookup id w.coll._active_calls with
      | none =>
          rw [hcall] at hid
          simp at hid
      | some call0 =>
          rw [hcall] at hid
          have htool : call0.tool_name = t := by simpa using hid
          obtain ⟨hact2, _, htot, hconc, _⟩ :=
            end_tool_call_effect now id true none w call0 hcall
          have hfold : endAll now (id :: ids) w
              = endAll now ids (end_tool_call now id true none w).2 := rfl
          have hvalid : ∀ id2 ∈ ids,
              activeCallFor t id2 (end_tool_call now id true none w).2.coll = true := by
            intro id2 hid2
            have hne : id2 ≠ id := by
              intro hh
              subst hh
              exact (List.nodup_cons.mp hnd).1 hid2
            unfold activeCallFor
            rw [hact2, alookup_aremove_ne _ hne]
            have h3 := hact id2 (List.mem_cons_of_mem _ hid2)
            unfold activeCallFor at h3
            exact h3
          have hconc1 : concurrentOf t (end_tool_call now id true none w).2.coll = 0 := by
            rw [htool] at hconc
            rw [hconc, h0]
            decide
          have htot1 : totalOf t (end_tool_call now id true none w).2.coll
              = totalOf t w.coll + 1 := by
            rw [htool] at htot
            exact htot
          obtain ⟨ha, hb⟩ :=
            ih (end_tool_call now id true none w).2 hvalid (List.nodup_cons.mp hnd).2 hconc1
          refine ⟨?_, by rw [hfold]; exact hb⟩
          rw [hfold, ha, htot1, List.length_cons]
          omega

-- ### Claim theorems: the metrics collector

/-- C6 counterexample: on a fresh collector, the very first
`start_tool_call` for a name does *not* increment that tool's
concurrently-active counter (it stays 0, not 1), because the counter is
only bumped when a metrics entry for the name already exists and the
entry is created lazily on the first `end`. -/
theorem C6_counterexample :
    concurrentOf "demo_tool" freshWorld.coll = 0
    ∧ concurrentOf "demo_tool" startedOnce.2.coll = 0
    ∧ concurrentOf "demo_tool" startedOnce.2.coll
        ≠ concurrentOf "demo_tool" freshWorld.coll + 1 :=
  ⟨rfl, by decide, by decide⟩

/-- C6 amended: `start_tool_call` increments the concurrently-active
counter only when a metrics entry for the name already exists (the entry
is created lazily by the first `end`, so starts before any completed
call for that name leave the counter untouched); every matching `end`
decrements it floored at zero; and the §8 scenario still holds: after
100 starts for one tool on a fresh collector followed by the 100
matching ends in any order, `total_calls = 100` and
`concurrent_calls = 0`. -/
theorem C6_concurrent_counter
    (now1 : PyFloat) (name sess tr sp : String) (params : Payload) (w1 : MetricsWorld)
    (now2 : PyFloat) (w2 : MetricsWorld) (m : ToolMetrics)
    (now3 : PyFloat) (id3 : String) (succ3 : Bool) (err3 : Option String)
    (w3 : MetricsWorld) (call3 : ToolCall) (ids : List String)
    (h1 : alookup name w1.coll._tool_metrics = none)
    (h2 : alookup name w2.coll._tool_metrics = some m)
    (h3 : alookup id3 w3.coll._active_calls = some call3)
    (h4 : ids.Perm scenario100.1) :
    concurrentOf name (start_tool_call now1 name sess tr sp params w1).2.coll
      = concurrentOf name w1.coll
    ∧ concurrentOf name (start_tool_call now2 name sess tr sp params w2).2.coll
      = m.concurrent_calls + 1
    ∧ concurrentOf call3.tool_name (end_tool_call now3 id3 succ3 err3 w3).2.coll
      = max 0 (concurrentOf call3.tool_name w3.coll - 1)
    ∧ totalOf "demo_tool" (endAll 7 ids scenario100.2).coll = 100
    ∧ concurrentOf "demo_tool" (endAll 7 ids scenario100.2).coll = 0 := by
  have hval : ∀ id ∈ scenario100.1,
      activeCallFor "demo_tool" id scenario100.2.coll = true := by decide
  have hnd : scenario100.1.Nodup := by decide
  have hc0 : concurrentOf "demo_tool" scenario100.2.coll = 0 := by decide
  have ht0 : totalOf "demo_tool" scenario100.2.coll = 0 := by decide
  have hlen : scenario100.1.length = 100 := by decide
  have hval2 : ∀ id ∈ ids, activeCallFor "demo_tool" id scenario100.2.coll = true :=
    fun id hid => hval id (h4.mem_iff.mp hid)
  have hnd2 : ids.Nodup := h4.nodup_iff.mpr hnd
  have hlen2 : ids.length = 100 := by rw [h4.length_eq, hlen]
  obtain ⟨ha, hb⟩ := endAll_spec "demo_tool" 7 ids scenario100.2 hval2 hnd2 hc0
  refine ⟨?_, ?_, ?_, ?_, hb⟩
  · unfold start_tool_call concurrentOf
    simp [h1]
  · unfold start_tool_call concurrentOf
    simp only [h2]
    simp [alookup_aupdate, h2]
  · exact (end_tool_call_effect now3 id3 succ3 err3 w3 call3 h3).2.2.2.1
  · rw [ha, ht0, hlen2]

/-- C6 witness: fresh world (no entry), a world with an existing entry,
one real active call, and the 100-start scenario ended in the issued
order (a permutation of itself). -/
theorem C6_concurrent_counter_witness :
    alookup "demo_tool" freshWorld.coll._tool_metrics = none
    ∧ alookup "demo_tool" worldWithMetrics.coll._tool_metrics = some mDemo
    ∧ alookup "demo_tool_1_5000" startedOnce.2.coll._active_calls = some callDemo
    ∧ scenario100.1.Perm scenario100.1
    ∧ (concurrentOf "demo_tool" (start_tool_call 0 "demo_tool" "" "" "" [] freshWorld).2.coll
        = concurrentOf "demo_tool" freshWorld.coll
      ∧ concurrentOf "demo_tool"
          (start_tool_call 0 "demo_tool" "" "" "" [] worldWithMetrics).2.coll
        = mDemo.concurrent_calls + 1
      ∧ concurrentOf callDemo.tool_name
          (end_tool_call 9 "demo_tool_1_5000" true none startedOnce.2).2.coll
        = max 0 (concurrentOf callDemo.tool_name startedOnce.2.coll - 1)
      ∧ totalOf "demo_tool" (endAll 7 scenario100.1 scenario100.2).coll = 100
      ∧ concurrentOf "demo_tool" (endAll 7 scenario100.1 scenario100.2).coll = 0) :=
  ⟨rfl, rfl, by decide, List.Perm.refl _,
    C6_concurrent_counter 0 "demo_tool" "" "" "" [] freshWorld 0 worldWithMetrics mDemo
      9 "demo_tool_1_5000" true none startedOnce.2 callDemo scenario100.1
      rfl rfl (by decide) (List.Perm.refl _)⟩

/-- C9: `end_tool_call` on an id that is not in the active-calls map is
a no-op: it logs a warning (not modelled), returns `None`, raises
nothing (the embedding is a total function), and leaves the whole world
— active calls, completed history, every tool's metrics, and the bus —
exactly as it was. -/
theorem C9_unknown_end_noop (now : PyFloat) (call_id : String) (success : Bool)
    (error : Option String) (w : MetricsWorld)
    (h : alookup call_id w.coll._active_calls = none) :
    end_tool_call now call_id success error w = (none, w) := by
  unfold end_tool_call
  rw [h]

/-- C9 witness: ending a never-issued id on the fresh world. -/
theorem C9_unknown_end_noop_witness :
    alookup "missing" freshWorld.coll._active_calls = none
    ∧ end_tool_call 3 "missing" true none freshWorld = (none, freshWorld) :=
  ⟨rfl, C9_unknown_end_noop 3 "missing" true none freshWorld rfl⟩

/-- C10: `end_tool_call` is Option-valued: on an active id it returns
the finalized record — `end_time = now`, `duration = now - start_time`,
and `success`/`error` exactly the arguments passed — and on an unknown
id it returns `none`. -/
theorem C10_end_result (now : PyFloat) (call_id : String) (success : Bool)
    (error : Option String) (w : MetricsWorld) (call0 : ToolCall) (v : MetricsWorld)
    (h : alookup call_id w.coll._active_calls = some call0)
    (hv : alookup call_id v.coll._active_calls = none) :
    (end_tool_call now call_id success error w).1
      = some { call0 with end_time := some now,
                          duration := some (now - call0.start_time),
                          success := success, error := error }
    ∧ ((end_tool_call now call_id success error w).1.map ToolCall.duration).getD none
        = some (now - call0.start_time)
    ∧ ((end_tool_call now call_id success error w).1.map ToolCall.end_time).getD none
        = some now
    ∧ ((end_tool_call now call_id success error w).1.map ToolCall.success).getD (!success)
        = success
    ∧ ((end_tool_call now call_id success error w).1.map ToolCall.error).getD none = error
    ∧ (end_tool_call now call_id success error v).1 = none := by
  refine ⟨?_, ?_, ?_, ?_, ?_, ?_⟩
  · unfold end_tool_call
    rw [h]
  · unfold end_tool_call
    rw [h]
    rfl
  · unfold end_tool_call
    rw [h]
    rfl
  · unfold end_tool_call
    rw [h]
    rfl
  · unfold end_tool_call
    rw [h]
    rfl
  · unfold end_tool_call
    rw [hv]

/-- C10 witness: the call minted by `startedOnce`, ended at time 9, and
a fresh world for the unknown-id half. -/
theorem C10_end_result_witness :
    alookup "demo_tool_1_5000" startedOnce.2.coll._active_calls = some callDemo
    ∧ alookup "demo_tool_1_5000" freshWorld.coll._active_calls = none
    ∧ ((end_tool_call 9 "demo_tool_1_5000" true none startedOnce.2).1
        = some { callDemo with end_time := some 9,
                               duration := some (9 - callDemo.start_time),
                               success := true, error := none }
      ∧ ((end_tool_call 9 "demo_tool_1_5000" true none startedOnce.2).1.map
          ToolCall.duration).getD none = some (9 - callDemo.start_time)
      ∧ ((end_tool_call 9 "demo_tool_1_5000" true none startedOnce.2).1.map
          ToolCall.end_time).getD none = some 9
      ∧ ((end_tool_call 9 "demo_tool_1_5000" true none startedOnce.2).1.map
          ToolCall.success).getD (!true) = true
      ∧ ((end_tool_call 9 "demo_tool_1_5000" true none startedOnce.2).1.map
          ToolCall.error).getD none = none
      ∧ (end_tool_call 9 "demo_tool_1_5000" true none freshWorld).1 = none) :=
  ⟨by decide, rfl,
    C10_end_result 9 "demo_tool_1_5000" true none startedOnce.2 callDemo freshWorld
      (by decide) rfl⟩

-- ### Heatmap characterization

theorem alookup_eq_none_iff {κ β : Type} [DecidableEq κ] (k : κ) (l : List (κ × β)) :
    alookup k l = none ↔ ∀ p ∈ l, p.1 ≠ k := by
  induction l with
  | nil => simp [alookup]
  | cons p l ih =>
      rw [alookup_cons]
      by_cases h : p.1 = k
      · simp [h]
      · simp [h, ih]

theorem aupdate_of_absent {κ β : Type} [DecidableEq κ] {k : κ} (f : β → β)
    {l : List (κ × β)} (h : alookup k l = none) : aupdate k f l = l := by
  rw [alookup_eq_none_iff] at h
  unfold aupdate
  rw [show l.map (fun p => if p.1 = k then (p.1, f p.2) else p) = l.map id by
    exact List.map_congr_left (fun p hp => by rw [if_neg (h p hp)]; rfl)]
  exact List.map_id l

/-- The absolute-hour key of the `i`-th bucket, computed the way the
source computes it, equals `⌊now/3600⌋ - i`. -/
theorem bucket_key_eq (now : PyFloat) (i : Nat) (hden : now.den ≠ 0) :
    PyFloat.floor ((now - (i : PyFloat) * 3600) / 3600)
      = PyFloat.floor (now / 3600) - (i : ℤ) := by
  have hnum1 : ((now - (i : PyFloat) * 3600) / 3600).num
      = (now.num * (1 * 1) - (i * 3600) * now.den) * (1 * 1) * 1 := rfl
  have hden1 : (((now - (i : PyFloat) * 3600) / 3600)).den = now.den * (1 * 1) * 3600 := rfl
  have hnum2 : (now / 3600).num = now.num * 1 * 1 := rfl
  have hden2 : (now / 3600).den = now.den * 3600 := rfl
  unfold PyFloat.floor
  rw [hnum1, hden1, hnum2, hden2]
  have hd : (0 : ℤ) < ((now.den * 3600 : Nat) : ℤ) := by
    have : now.den * 3600 ≠ 0 := by
      intro hh
      rcases Nat.mul_eq_zero.mp hh with h1 | h1
      · exact hden h1
      · omega
    exact_mod_cast Nat.pos_of_ne_zero this
  rw [show (now.num * (1 * 1) - (i * 3600) * now.den) * (1 * 1) * 1
      = now.num + (-(i : ℤ)) * ((now.den * 3600 : Nat) : ℤ) by push_cast; ring]
  rw [show ((now.den * (1 * 1) * 3600 : Nat) : ℤ) = ((now.den * 3600 : Nat) : ℤ) by
    push_cast; ring]
  rw [show now.num * 1 * 1 = now.num by ring]
  rw [Int.fdiv_eq_ediv _ (le_of_lt hd), Int.fdiv_eq_ediv _ (le_of_lt hd)]
  rw [Int.add_mul_ediv_right _ _ (by omega : ((now.den * 3600 : Nat) : ℤ) ≠ 0)]
  ring

theorem heatmapBuckets0_eq (now : PyFloat) (hours : Nat) (hden : now.den ≠ 0) :
    heatmapBuckets0 now hours = (List.range hours).map (bucketInitSpec now) := by
  induction hours with
  | zero => rfl
  | succ n ih =>
      unfold heatmapBuckets0 at ih ⊢
      rw [List.range_succ, List.foldl_append, ih]
      show dictInsert ((List.range n).map (bucketInitSpec now))
          (PyFloat.floor ((now - (n : PyFloat) * 3600) / 3600))
          { hour := PyFloat.floor ((now - (n : PyFloat) * 3600) / 3600),
            timestamp := now - (n : PyFloat) * 3600, calls := 0, errors := 0,
            avg_duration := 0, durations := [] }
        = _
      rw [bucket_key_eq now n hden]
      unfold dictInsert
      have habs : alookup (PyFloat.floor (now / 3600) - (n : ℤ))
          ((List.range n).map (bucketInitSpec now)) = none := by
        rw [alookup_eq_none_iff]
        intro p hp
        obtain ⟨i, hi, rfl⟩ := List.mem_map.mp hp
        rw [List.mem_range] at hi
        show PyFloat.floor (now / 3600) - (i : ℤ) ≠ PyFloat.floor (now / 3600) - (n : ℤ)
        intro hh
        omega
      rw [habs]
      show (List.range n).map (bucketInitSpec now) ++ [_] = _
      rw [List.map_append]
      rfl

theorem heatmapFillStep_eq (cutoff : PyFloat) (bs : List (ℤ × HeatBucketAux)) (c : ToolCall) :
    heatmapFillStep cutoff bs c
      = if c.start_time < cutoff then bs
        else aupdate (PyFloat.floor (c.start_time / 3600)) (bucketFill c) bs := by
  unfold heatmapFillStep
  by_cases h : c.start_time < cutoff
  · rw [if_pos h, if_pos h]
  · rw [if_neg h, if_neg h]
    by_cases h2 : (alookup (PyFloat.floor (c.start_time / 3600)) bs).isSome
    · rw [if_pos h2]
    · rw [if_neg h2]
      rw [Option.not_isSome_iff_eq_none] at h2
      exact (aupdate_of_absent _ h2).symm

/-- Phase 2 as a whole: folding the calls over the bucket dict updates
each bucket independently with exactly the calls that pass the cutoff
and land on its key. -/
theorem fill_foldl_eq (cutoff : PyFloat) (calls : List ToolCall) :
    ∀ bs : List (ℤ × HeatBucketAux),
    calls.foldl (heatmapFillStep cutoff) bs
      = bs.map (fun p => (p.1,
          (calls.filter (fun c => !decide (c.start_time < cutoff)
            && decide (PyFloat.floor (c.start_time / 3600) = p.1))).foldl
            (fun b c => bucketFill c b) p.2)) := by
  induction calls with
  | nil =>
      intro bs
      simp
  | cons c calls ih =>
      intro bs
      show calls.foldl (heatmapFillStep cutoff) (heatmapFillStep cutoff bs c) = _
      rw [ih (heatmapFillStep cutoff bs c), heatmapFillStep_eq]
      by_cases hc : c.start_time < cutoff
      · rw [if_pos hc]
        apply List.map_congr_left
        intro p _
        simp [List.filter_cons, hc]
      · rw [if_neg hc]
        unfold aupdate
        rw [List.map_map]
        apply List.map_congr_left
        intro p _
        show (fun p : ℤ × HeatBucketAux => (p.1,
          (calls.filter (fun c => !decide (c.start_time < cutoff)
            && decide (PyFloat.floor (c.start_time / 3600) = p.1))).foldl
            (fun b c => bucketFill c b) p.2))
          (if p.1 = PyFloat.floor (c.start_time / 3600)
           then (p.1, bucketFill c p.2) else p) = _
        by_cases hp : p.1 = PyFloat.floor (c.start_time / 3600)
        · rw [if_pos hp]
          simp [List.filter_cons, hc, hp]
        · rw [if_neg hp]
          have hpred : (PyFloat.floor (c.start_time / 3600) = p.1) = False := by
            simp only [eq_iff_iff, iff_false]
            exact fun hh => hp hh.symm
          simp [List.filter_cons, hc, hpred]

/-- Folding a batch of calls into one bucket, in closed form: the call
count rises by the batch size, the error count by its failures, and the
(nonzero) durations are appended in order. -/
theorem bucketFill_foldl (cs : List ToolCall) : ∀ b : HeatBucketAux,
    cs.foldl (fun b c => bucketFill c b) b
      = { b with calls := b.calls + cs.length,
                 errors := b.errors + (cs.filter (fun c => !c.success)).length,
                 durations := b.durations ++ cs.filterMap (fun c =>
                   match c.duration with
                   | some d => if d.num = 0 then none else some d
                   | none => none) } := by
  induction cs with
  | nil =>
      intro b
      simp
  | cons c cs ih =>
      intro b
      show cs.foldl (fun b c => bucketFill c b) (bucketFill c b) = _
      rw [ih (bucketFill c b)]
      unfold bucketFill
      cases hsucc : c.success <;> rcases hd : c.duration with _ | d
      · simp [List.filter_cons, List.filterMap_cons, hsucc, hd]
        omega
      · by_cases hz : d.num = 0 <;>
          (simp [List.filter_cons, List.filterMap_cons, hsucc, hd, hz]; omega)
      · simp [List.filter_cons, List.filterMap_cons, hsucc, hd]
        omega
      · by_cases hz : d.num = 0 <;>
          (simp [List.filter_cons, List.filterMap_cons, hsucc, hd, hz]; omega)

theorem pyfloat_not_lt {a b : PyFloat} : ¬ a < b ↔ b ≤ a := Int.not_lt

/-- The heatmap, characterized bucket by bucket: one entry per hour
`i = 0 … hours-1` (newest first), each exactly `heatBucketSpec`. -/
theorem get_activity_heatmap_eq (now : PyFloat) (hours : Nat) (completed : List ToolCall)
    (hden : now.den ≠ 0) :
    get_activity_heatmap now hours completed
      = (List.range hours).map (heatBucketSpec now hours completed) := by
  simp only [get_activity_heatmap]
  rw [fill_foldl_eq, heatmapBuckets0_eq now hours hden, List.map_map, List.map_map]
  apply List.map_congr_left
  intro i _
  show heatmapFinalize
      ((bucketInitSpec now i).1,
        (completed.filter (fun c => !decide (c.start_time < now - (hours : PyFloat) * 3600)
          && decide (PyFloat.floor (c.start_time / 3600) = (bucketInitSpec now i).1))).foldl
          (fun b c => bucketFill c b) (bucketInitSpec now i).2)
    = heatBucketSpec now hours completed i
  rw [bucketFill_foldl]
  have hfilter : (completed.filter (fun c =>
        !decide (c.start_time < now - (hours : PyFloat) * 3600)
          && decide (PyFloat.floor (c.start_time / 3600) = (bucketInitSpec now i).1)))
      = completed.filter (fun c =>
          decide (now - (hours : PyFloat) * 3600 ≤ c.start_time)
            && decide (PyFloat.floor (c.start_time / 3600) = (bucketInitSpec now i).1)) := by
    apply List.filter_congr
    intro c _
    congr 1
    rw [← decide_not]
    exact decide_eq_decide.mpr pyfloat_not_lt
  rw [hfilter]
  unfold heatmapFinalize heatBucketSpec bucketInitSpec
  simp

/-- C7 counterexample: with `now = 5400` and `hours = 1` the query
interval is `[1800, 5400]`; the completed call at `start_time = 3000`
lies inside it, yet the returned single bucket (absolute hour key 1,
covering `[3600, 7200)`) counts nothing — the call's absolute hour 0 is
below the oldest bucket key, so an in-interval call is dropped. -/
theorem C7_counterexample :
    ((5400 : PyFloat) - ((1 : Nat) : PyFloat) * 3600 ≤ heatCexCall.start_time)
    ∧ (heatCexCall.start_time ≤ (5400 : PyFloat))
    ∧ (get_activity_heatmap 5400 1 [heatCexCall]).length = 1
    ∧ (get_activity_heatmap 5400 1 [heatCexCall]).map HeatBucket.calls = [0] := by
  refine ⟨by decide, by decide, by decide, by decide⟩

/-- C7 amended: the heatmap's buckets are the `hours` absolute one-hour
windows keyed `⌊now/3600⌋ - i` for `i = 0 … hours-1` (not a partition
of `[now - hours·3600, now]`): a completed call is counted into bucket
`i` exactly when it is at or after the cutoff *and* its absolute hour
equals that bucket's key, so in-interval calls whose absolute hour falls
below the oldest key are dropped; the result always has exactly `hours`
entries, zero-filled when no call matches. -/
theorem C7_heatmap_buckets (now : PyFloat) (hours : Nat) (completed : List ToolCall)
    (b : HeatBucket) (hden : now.den ≠ 0) (hb : b ∈ get_activity_heatmap now hours []) :
    get_activity_heatmap now hours completed
      = (List.range hours).map (heatBucketSpec now hours completed)
    ∧ (get_activity_heatmap now hours completed).length = hours
    ∧ b.calls = 0 ∧ b.errors = 0 := by
  have hchar := get_activity_heatmap_eq now hours completed hden
  have hchar0 := get_activity_heatmap_eq now hours [] hden
  refine ⟨hchar, ?_, ?_⟩
  · rw [hchar, List.length_map, List.length_range]
  · rw [hchar0] at hb
    obtain ⟨i, _, rfl⟩ := List.mem_map.mp hb
    exact ⟨rfl, rfl⟩

/-- C7 witness: a two-hour heatmap at `now = 3600` with no calls; its
newest bucket is zero-filled. -/
theorem C7_heatmap_buckets_witness :
    (3600 : PyFloat).den ≠ 0
    ∧ ({ hour := 1, timestamp := 3600, calls := 0, errors := 0, avg_duration := 0 }
        : HeatBucket) ∈ get_activity_heatmap 3600 2 []
    ∧ (get_activity_heatmap 3600 2 [heatCexCall]
        = (List.range 2).map (heatBucketSpec 3600 2 [heatCexCall])
      ∧ (get_activity_heatmap 3600 2 [heatCexCall]).length = 2
      ∧ ({ hour := 1, timestamp := 3600, calls := 0, errors := 0, avg_duration := 0 }
          : HeatBucket).calls = 0
      ∧ ({ hour := 1, timestamp := 3600, calls := 0, errors := 0, avg_duration := 0 }
          : HeatBucket).errors = 0) :=
  ⟨by decide, by decide,
    C7_heatmap_buckets 3600 2 [heatCexCall]
      { hour := 1, timestamp := 3600, calls := 0, errors := 0, avg_duration := 0 }
      (by decide) (by decide)⟩
